import Mathlib

/-!
# Safe-Web content-script masking core: a shallow embedding

This file embeds the sensitive-information masking core of the Safe-Web
browser extension (`src/content/content.js`) together with the settings
management hook (`useSettings`, `addCustomPattern`) in Lean 4, and proves
or refutes the frozen specification claims about it.

Modelling conventions:
* Text is `List Char` (JS strings; the code under scrutiny is ASCII-heavy).
* The JavaScript regular expressions of `getSensitivePatterns` are embedded
  by an executable backtracking matcher whose priority order mirrors the
  JS engine (leftmost match, greedy quantifiers, alternatives in order).
  All repetition in the source regexes is over single character classes,
  which the combinators below cover exactly.
* `String.prototype.replace` with a `/g` regex is embedded by
  `replSegs`, which splits a string into unmatched (plain) and matched
  segments, scanning left to right and resuming after each match.
* `btoa` / `atob` are embedded as base64 over byte lists; `btoa` fails
  (JS: throws) on code points above 255, `atob` fails on strings that are
  not forgiving-base64.
* `tempDiv.innerHTML = maskedHTML` is embedded by a fragment parser for
  the markup shapes the engine itself emits: character data with decoding
  of the named character references amp/lt/gt/quot, and (arbitrarily
  nested) `span` elements in exactly the attribute layout produced by
  `createMaskedElement`.  Markup outside this fragment language — tags in
  other shapes, and any `&`-sequence other than the four references above
  (e.g. `&copy;`, `&#38;`), whose browser treatment the model does not
  reproduce — makes the parse fail (`none`), which keeps every theorem
  scoped to inputs on which the model and the browser agree.
* JS whitespace (`\s`, `String.prototype.trim`) is modelled by its ASCII
  subset (space, tab, LF, CR, FF, VT); the exotic Unicode space code
  points do not occur in any claim.
-/

set_option maxRecDepth 8000

namespace SafeWeb

/-- ASCII subset of the JS `\s` class / `String.prototype.trim` whitespace. -/
def isWS (c : Char) : Bool :=
  c = ' ' || c = '\t' || c = '\n' || c = '\r' || c = Char.ofNat 12 || c = Char.ofNat 11

/-- JS `\w` word character, `[A-Za-z0-9_]` (used by `\b`). -/
def isWordChar (c : Char) : Bool :=
  c.isAlphanum || c = '_'

/-- The double-quote character (kept out of literals for hygiene). -/
def dq : Char := Char.ofNat 34

/-- JS `String.prototype.trim` on a character list (ASCII whitespace). -/
def trimWS (s : List Char) : List Char :=
  ((s.dropWhile isWS).reverse.dropWhile isWS).reverse

/-!
## Regex matcher engine

A matcher receives the character before the current position (for `\b`)
and the remaining input, and returns the list of lengths of prefixes of
the input it can consume, in the same priority order in which a JS
backtracking engine would try them.  The head of the list is therefore
the match the JS engine commits to.
-/

/-- A matcher: previous character, remaining input ↦ consumable prefix
lengths in JS backtracking priority order. -/
def Matcher : Type := Option Char → List Char → List Nat

/-- Character after consuming `k` characters of `rest` (for `\b` tracking). -/
def prevAfter (prev : Option Char) (rest : List Char) (k : Nat) : Option Char :=
  match (rest.take k).getLast? with
  | some c => some c
  | none => prev

/-- Match the empty string. -/
def mEps : Matcher := fun _ _ => [0]

/-- Match one character satisfying `f`. -/
def mCls (f : Char → Bool) : Matcher := fun _ rest =>
  match rest with
  | [] => []
  | c :: _ => if f c then [1] else []

/-- Sequencing, preserving backtracking priority order. -/
def mSeq (a b : Matcher) : Matcher := fun prev rest =>
  (a prev rest).flatMap fun k =>
    (b (prevAfter prev rest k) (rest.drop k)).map fun k2 => k + k2

/-- Ordered alternation `x|y`. -/
def mAlt (a b : Matcher) : Matcher := fun prev rest =>
  a prev rest ++ b prev rest

/-- Greedy option `x?`. -/
def mOpt (a : Matcher) : Matcher := fun prev rest =>
  a prev rest ++ [0]

/-- Exact repetition `x{n}`. -/
def mRep (a : Matcher) : Nat → Matcher
  | 0 => mEps
  | n + 1 => mSeq a (mRep a n)

/-- Greedy `f*` over a character class: consume the maximal run, then
backtrack one character at a time. -/
def mManyCls (f : Char → Bool) : Matcher := fun _ rest =>
  let run := (rest.takeWhile f).length
  (List.range (run + 1)).reverse

/-- Greedy `f+` over a character class. -/
def mPlusCls (f : Char → Bool) : Matcher :=
  mSeq (mCls f) (mManyCls f)

/-- Word boundary `\b`. -/
def mBound : Matcher := fun prev rest =>
  let before := match prev with | none => false | some c => isWordChar c
  let after := match rest with | [] => false | c :: _ => isWordChar c
  if before != after then [0] else []

/-- Literal character sequence. -/
def mLit : List Char → Matcher
  | [] => mEps
  | c :: cs => mSeq (mCls (· = c)) (mLit cs)

/-!
### The four built-in regexes of `getSensitivePatterns`
-/

/-- email local part class `[a-zA-Z0-9._%+-]`. -/
def emailLocalChar (c : Char) : Bool :=
  c.isAlphanum || c = '.' || c = '_' || c = '%' || c = '+' || c = '-'

/-- email domain class `[a-zA-Z0-9.-]`. -/
def emailDomChar (c : Char) : Bool :=
  c.isAlphanum || c = '.' || c = '-'

/-- `/[a-zA-Z0-9._%+-]+@[a-zA-Z0-9.-]+\.[a-zA-Z]{2,}/` -/
def emailRegex : Matcher :=
  mSeq (mPlusCls emailLocalChar)
    (mSeq (mCls (· = '@'))
      (mSeq (mPlusCls emailDomChar)
        (mSeq (mCls (· = '.'))
          (mSeq (mRep (mCls Char.isAlpha) 2) (mManyCls Char.isAlpha)))))

/-- `[\s\-]` separator class of the phone regex. -/
def phoneSep (c : Char) : Bool := isWS c || c = '-'

/-- `/(\+1\s?)?(\([0-9]{3}\)|[0-9]{3})[\s\-]?[0-9]{3}[\s\-]?[0-9]{4}/` -/
def phoneRegex : Matcher :=
  mSeq (mOpt (mSeq (mCls (· = '+')) (mSeq (mCls (· = '1')) (mOpt (mCls isWS)))))
    (mSeq (mAlt
            (mSeq (mCls (· = '(')) (mSeq (mRep (mCls Char.isDigit) 3) (mCls (· = ')'))))
            (mRep (mCls Char.isDigit) 3))
      (mSeq (mOpt (mCls phoneSep))
        (mSeq (mRep (mCls Char.isDigit) 3)
          (mSeq (mOpt (mCls phoneSep)) (mRep (mCls Char.isDigit) 4)))))

/-- `/\b\d{3}-?\d{2}-?\d{4}\b/` -/
def ssnRegex : Matcher :=
  mSeq mBound
    (mSeq (mRep (mCls Char.isDigit) 3)
      (mSeq (mOpt (mCls (· = '-')))
        (mSeq (mRep (mCls Char.isDigit) 2)
          (mSeq (mOpt (mCls (· = '-')))
            (mSeq (mRep (mCls Char.isDigit) 4) mBound)))))

/-- `/\b\d{4}[\s\-]?\d{4}[\s\-]?\d{4}[\s\-]?\d{4}\b/` -/
def creditCardRegex : Matcher :=
  mSeq mBound
    (mSeq (mRep (mCls Char.isDigit) 4)
      (mSeq (mOpt (mCls phoneSep))
        (mSeq (mRep (mCls Char.isDigit) 4)
          (mSeq (mOpt (mCls phoneSep))
            (mSeq (mRep (mCls Char.isDigit) 4)
              (mSeq (mOpt (mCls phoneSep))
                (mSeq (mRep (mCls Char.isDigit) 4) mBound)))))))

/-!
## Global replace (`String.prototype.replace` with `/g`)

`replSegs` decomposes a string into `plain`/`matched` segments the way a
global replace visits it: at each position take the engine's first match
if any (and resume after it, remembering the last consumed character for
`\b`), otherwise emit the character as plain text and advance by one.
-/

/-- A segment of a replace decomposition. -/
inductive Seg where
  | plain : Char → Seg
  | matched : List Char → Seg
deriving DecidableEq, Repr

/-- The replace decomposition of `rest` (with preceding character `prev`).
Every step consumes at least one character, so fuel `rest.length` (as
supplied by `replSegs`) always suffices; the fuel-exhausted arm (never
reached from `replSegs`) emits the remainder as plain text. -/
def replSegsAux (m : Matcher) : Nat → Option Char → List Char → List Seg
  | 0, _, rest => rest.map Seg.plain
  | fuel + 1, prev, rest =>
    match rest with
    | [] => []
    | c :: rtail =>
      match (m prev rest).head? with
      | some k =>
        if k = 0 ∨ rest.length < k then
          Seg.plain c :: replSegsAux m fuel (some c) rtail
        else
          Seg.matched (rest.take k) :: replSegsAux m fuel (prevAfter prev rest k) (rest.drop k)
      | none => Seg.plain c :: replSegsAux m fuel (some c) rtail

/-- The replace decomposition of a whole string. -/
def replSegs (m : Matcher) (s : List Char) : List Seg :=
  replSegsAux m s.length none s

/-- Contents of a segment (the characters it covers in the input). -/
def Seg.content : Seg → List Char
  | .plain c => [c]
  | .matched s => s

/-- `replace(regex, f)`: plain segments verbatim, matched segments through `f`. -/
def replaceAll (m : Matcher) (f : List Char → List Char) (s : List Char) : List Char :=
  (replSegs m s).flatMap fun seg =>
    match seg with
    | .plain c => [c]
    | .matched t => f t

/-!
## Settings (`useSettings.js` / background defaults)
-/

/-- A user-defined custom pattern, as stored by `useSettings`. -/
structure CustomPattern where
  id : List Char
  name : List Char
  regex : List Char
  description : List Char
  enabled : Bool
  createdAt : List Char
deriving DecidableEq, Repr

/-- The `sensitivePatterns` field of the settings object. -/
structure SensitivePatterns where
  email : Bool
  phone : Bool
  ssn : Bool
  creditCard : Bool
  names : Bool
  addresses : Bool
  customPatterns : List CustomPattern
deriving DecidableEq, Repr

/-- The settings fields the content script reads.  (`shortcuts`, `theme`
and `animations` are never consulted by the masking core.) -/
structure Settings where
  maskingEnabled : Bool
  maskingStyle : List Char
  maskingIntensity : Nat
  sensitivePatterns : SensitivePatterns
deriving DecidableEq, Repr

/-!
## Pattern Registry (`getSensitivePatterns`)
-/

/-- One registry entry: category key, compiled rule, display class. -/
structure SWPattern where
  ptype : List Char
  matcher : Matcher
  className : List Char

/-- `getSensitivePatterns()`: builds the category ↦ rule/class mapping from
the current settings, in JS object-insertion order.  `this.settings` may be
absent (`Option`); `?.sensitivePatterns` short-circuits to the empty map. -/
def getSensitivePatterns (s? : Option Settings) : List SWPattern :=
  match s? with
  | none => []
  | some s =>
    (if s.sensitivePatterns.email then
      [⟨"email".data, emailRegex, "safe-web-masked-email".data⟩] else []) ++
    (if s.sensitivePatterns.phone then
      [⟨"phone".data, phoneRegex, "safe-web-masked-phone".data⟩] else []) ++
    (if s.sensitivePatterns.ssn then
      [⟨"ssn".data, ssnRegex, "safe-web-masked-ssn".data⟩] else []) ++
    (if s.sensitivePatterns.creditCard then
      [⟨"creditCard".data, creditCardRegex, "safe-web-masked-card".data⟩] else [])

/-!
## Base64 (`btoa` / `atob`)
-/

/-- The base64 alphabet. -/
def b64Alphabet : List Char :=
  "ABCDEFGHIJKLMNOPQRSTUVWXYZabcdefghijklmnopqrstuvwxyz0123456789+/".data

/-- Sextet value to base64 character. -/
def b64Char (n : Nat) : Char := b64Alphabet.getD n '?'

/-- Base64 character to sextet value (`none` off the alphabet, incl. `=`). -/
def b64Val? (c : Char) : Option Nat := b64Alphabet.findIdx? (· = c)

/-- `btoa` on a byte list (standard base64 with padding). -/
def btoaBytes : List Nat → List Char
  | [] => []
  | [a] => [b64Char (a / 4), b64Char (a % 4 * 16), '=', '=']
  | [a, b] => [b64Char (a / 4), b64Char (a % 4 * 16 + b / 16), b64Char (b % 16 * 4), '=']
  | a :: b :: c :: rest =>
    b64Char (a / 4) :: b64Char (a % 4 * 16 + b / 16) :: b64Char (b % 16 * 4 + c / 64) ::
      b64Char (c % 64) :: btoaBytes rest

/-- `atob` on a character list (forgiving base64: unpadded tails of length
2 or 3 are accepted, a tail of length 1 or any character off the alphabet
is an error). -/
def atobBytes? : List Char → Option (List Nat)
  | [] => some []
  | [_] => none
  | [a, b] => do
    let va ← b64Val? a
    let vb ← b64Val? b
    pure [va * 4 + vb / 16]
  | [a, b, c] => do
    let va ← b64Val? a
    let vb ← b64Val? b
    let vc ← b64Val? c
    pure [va * 4 + vb / 16, vb % 16 * 16 + vc / 4]
  | a :: b :: c :: d :: rest => do
    let va ← b64Val? a
    let vb ← b64Val? b
    if d = '=' then
      if rest = [] then
        if c = '=' then
          pure [va * 4 + vb / 16]
        else do
          let vc ← b64Val? c
          pure [va * 4 + vb / 16, vb % 16 * 16 + vc / 4]
      else none
    else do
      let vc ← b64Val? c
      let vd ← b64Val? d
      let tail ← atobBytes? rest
      pure ([va * 4 + vb / 16, vb % 16 * 16 + vc / 4, vc % 4 * 64 + vd] ++ tail)

/-- `btoa` on a string: fails (JS: throws `InvalidCharacterError`) on code
points above 255. -/
def btoaStr? (s : List Char) : Option (List Char) :=
  if s.all (fun c => c.toNat < 256) then some (btoaBytes (s.map Char.toNat)) else none

/-- `atob` on a string. -/
def atobStr? (s : List Char) : Option (List Char) :=
  (atobBytes? s).map (List.map Char.ofNat)

/-!
## Masking Engine (`createMaskedElement`, `maskTextNode`)
-/

/-- `this.settings?.maskingStyle || "blur"` (JS truthiness: absent or
empty string falls back to `"blur"`). -/
def effectiveStyle (s? : Option Settings) : List Char :=
  match s? with
  | none => "blur".data
  | some s => if s.maskingStyle = [] then "blur".data else s.maskingStyle

/-- `Math.min(this.settings?.maskingIntensity || 5, 10)` (JS truthiness:
absent or zero intensity falls back to `5`; clamped to at most `10`). -/
def effectiveIntensity (s? : Option Settings) : Nat :=
  min (match s? with
       | none => 5
       | some s => if s.maskingIntensity = 0 then 5 else s.maskingIntensity) 10

/-- The style/intensity class appended by the `switch` in
`createMaskedElement` (empty for an unrecognised style). -/
def styleSuffix (s? : Option Settings) : List Char :=
  if effectiveStyle s? = "blur".data then
    " safe-web-blur-".data ++ (Nat.repr (effectiveIntensity s?)).data
  else if effectiveStyle s? = "pixelate".data then
    " safe-web-pixelate-".data ++ (Nat.repr (effectiveIntensity s?)).data
  else if effectiveStyle s? = "blackout".data then " safe-web-blackout".data
  else []

/-- The class string of a masked span: `safe-web-masked`, the category
display class, and the style/intensity class. -/
def maskingClassOf (s? : Option Settings) (className : List Char) : List Char :=
  "safe-web-masked ".data ++ (className ++ styleSuffix s?)

/-- `createMaskedElement(text, className, type)`: the replacement markup for
one match.  The `btoa(text)` call is written on bytes here; its throwing
behaviour on non-Latin-1 text is accounted for by the guard in
`maskPassHTML` (the exception would abort the whole replace). -/
def createMaskedElement (s? : Option Settings) (text className ty : List Char) : List Char :=
  "<span class=".data ++ [dq] ++ maskingClassOf s? className ++ [dq] ++
  " data-safe-web-type=".data ++ [dq] ++ ty ++ [dq] ++
  " data-safe-web-original=".data ++ [dq] ++ btoaBytes (text.map Char.toNat) ++ [dq] ++
  " title=".data ++ [dq] ++ "Safe-Web: Sensitive information masked".data ++ [dq] ++
  ">".data ++ text ++ "</span>".data

/-- Whether every matched segment of a replace decomposition is Latin-1
(otherwise `btoa` throws inside the replace callback). -/
def matchesLatin1 (segs : List Seg) : Bool :=
  segs.all fun seg =>
    match seg with
    | Seg.matched t => t.all (fun c => c.toNat < 256)
    | _ => true

/-- One `maskedHTML = maskedHTML.replace(pattern.regex, match => ...)` pass
of `maskTextNode`; `none` models the `btoa` exception escaping. -/
def maskPassHTML (s? : Option Settings) (p : SWPattern) (html : List Char) :
    Option (List Char) :=
  if matchesLatin1 (replSegs p.matcher html) then
    some (replaceAll p.matcher (fun t => createMaskedElement s? t p.className p.ptype) html)
  else none

/-- The `for (const [type, pattern] of Object.entries(patterns))` replace
loop of `maskTextNode`, at the string level. -/
def maskTextNodeHTML (s? : Option Settings) (pats : List SWPattern) (text : List Char) :
    Option (List Char) :=
  pats.foldlM (fun html p => maskPassHTML s? p html) text

/-!
## The DOM fragment model and `innerHTML` parsing
-/

/-- A DOM node of the fragment model: a text node, or a `span` element with
its `class`, `data-safe-web-type` and `data-safe-web-original` attributes
and its children. -/
inductive DNode where
  | text : List Char → DNode
  | span (cls ty orig : List Char) (children : List DNode) : DNode
deriving Repr

mutual

/-- Decidable equality for `DNode` (hand-rolled: the nested `List DNode`
field defeats the default derivation). -/
def DNode.deq : (a b : DNode) → Decidable (a = b)
  | DNode.text a, DNode.text b =>
    match decEq a b with
    | isTrue h => isTrue (h ▸ rfl)
    | isFalse h => isFalse (fun he => h (DNode.text.inj he))
  | DNode.text _, DNode.span _ _ _ _ => isFalse (fun he => DNode.noConfusion he)
  | DNode.span _ _ _ _, DNode.text _ => isFalse (fun he => DNode.noConfusion he)
  | DNode.span c1 t1 o1 ch1, DNode.span c2 t2 o2 ch2 =>
    match decEq c1 c2, decEq t1 t2, decEq o1 o2, DNode.deqList ch1 ch2 with
    | isTrue h1, isTrue h2, isTrue h3, isTrue h4 => isTrue (by rw [h1, h2, h3, h4])
    | isFalse h1, _, _, _ => isFalse (fun he => h1 (by cases he; rfl))
    | _, isFalse h2, _, _ => isFalse (fun he => h2 (by cases he; rfl))
    | _, _, isFalse h3, _ => isFalse (fun he => h3 (by cases he; rfl))
    | _, _, _, isFalse h4 => isFalse (fun he => h4 (by cases he; rfl))

/-- Decidable equality for `List DNode`. -/
def DNode.deqList : (a2 b2 : List DNode) → Decidable (a2 = b2)
  | [], [] => isTrue rfl
  | [], _ :: _ => isFalse (fun he => List.noConfusion he)
  | _ :: _, [] => isFalse (fun he => List.noConfusion he)
  | a :: rest, b :: rest2 =>
    match DNode.deq a b, DNode.deqList rest rest2 with
    | isTrue h1, isTrue h2 => isTrue (by rw [h1, h2])
    | isFalse h1, _ => isFalse (fun he => h1 (by cases he; rfl))
    | _, isFalse h2 => isFalse (fun he => h2 (by cases he; rfl))

end

instance : DecidableEq DNode := DNode.deq

/-- Fuelled worker for `entityDecode?` (each step consumes at least one
character, so fuel `cs.length` suffices; the exhausted arm is unreachable
from `entityDecode?`). -/
def entityDecodeAux : Nat → List Char → Option (List Char)
  | 0, cs => if cs = [] then some [] else none
  | fuel + 1, cs =>
    match cs with
    | [] => some []
    | c :: rest =>
      if c = '&' then
        if rest.take 4 = "amp;".data then
          (entityDecodeAux fuel (rest.drop 4)).map ('&' :: ·)
        else if rest.take 3 = "lt;".data then
          (entityDecodeAux fuel (rest.drop 3)).map ('<' :: ·)
        else if rest.take 3 = "gt;".data then
          (entityDecodeAux fuel (rest.drop 3)).map ('>' :: ·)
        else if rest.take 5 = "quot;".data then
          (entityDecodeAux fuel (rest.drop 5)).map (dq :: ·)
        else none
      else (entityDecodeAux fuel rest).map (c :: ·)

/-- Decode character data.  The model covers exactly the named character
references `amp`, `lt`, `gt`, `quot`; ANY other `&`-sequence — other
named references such as `&copy;`, numeric references such as `&#38;`,
and bare `&` — makes the decode (and hence the fragment parse) fail with
`none`.  Real `innerHTML` parsing decodes some of those and leaves others
literal; refusing them keeps every theorem scoped to character data on
which the model and the browser provably agree, rather than silently
mis-modelling them. -/
def entityDecode? (cs : List Char) : Option (List Char) :=
  entityDecodeAux cs.length cs

/-- Consume an expected literal. -/
def expectLit (l cs : List Char) : Option (List Char) :=
  if cs.take l.length = l then some (cs.drop l.length) else none

/-- Read an attribute value up to (and consuming) the closing quote. -/
def readAttrVal (cs : List Char) : Option (List Char × List Char) :=
  let v := cs.takeWhile (· ≠ dq)
  match cs.drop v.length with
  | [] => none
  | _ :: rest => some (v, rest)

/-- `</span>`. -/
def closeTag : List Char := "</span>".data

/-- Parse a list of sibling nodes until `</span>` or end of input, with
fuel.  Covers exactly the markup `createMaskedElement` emits: text runs
(entity-decoded) and the rigid `span` attribute layout, nested freely. -/
def parseNodesAux : Nat → List Char → Option (List DNode × List Char)
  | 0, cs => if cs = [] then some ([], []) else none
  | fuel + 1, cs =>
    match cs with
    | [] => some ([], [])
    | '<' :: _ =>
      if cs.take closeTag.length = closeTag then some ([], cs)
      else do
        let r1 ← expectLit ("<span class=".data ++ [dq]) cs
        let (cls, r2) ← readAttrVal r1
        let r3 ← expectLit (" data-safe-web-type=".data ++ [dq]) r2
        let (ty, r4) ← readAttrVal r3
        let r5 ← expectLit (" data-safe-web-original=".data ++ [dq]) r4
        let (orig, r6) ← readAttrVal r5
        let r7 ← expectLit (" title=".data ++ [dq] ++
          "Safe-Web: Sensitive information masked".data ++ [dq] ++ ">".data) r6
        let (children, r8) ← parseNodesAux fuel r7
        let r9 ← expectLit closeTag r8
        let (siblings, r10) ← parseNodesAux fuel r9
        pure (DNode.span cls ty orig children :: siblings, r10)
    | _ =>
      let run := cs.takeWhile (· ≠ '<')
      match entityDecode? run with
      | none => none
      | some decoded =>
        (parseNodesAux fuel (cs.drop run.length)).map fun pr =>
          (DNode.text decoded :: pr.1, pr.2)

/-- `tempDiv.innerHTML = html` followed by moving the children out: the
node list the fragment parses to (`none` outside the modelled grammar). -/
def parseHTML? (html : List Char) : Option (List DNode) := do
  let (nodes, rest) ← parseNodesAux (html.length + 1) html
  if rest = [] then pure nodes else none

/-- `maskTextNode` on one text node, end to end: run every category's
replace pass over the node's text; if the string changed, parse it and
replace the text node by the resulting fragment (the `has(parent)` guard
and the MaskRecord bookkeeping live in `maskRegionPass` below).  `none`
models runs outside the fragment grammar or a `btoa` throw. -/
def maskTextNodeDom (s? : Option Settings) (pats : List SWPattern) (text : List Char) :
    Option (List DNode) := do
  let html ← maskTextNodeHTML s? pats text
  if html = text then pure [DNode.text text]
  else parseHTML? html

/-!
## Unmasking (`unmaskAllElements`)
-/

/-- Split a class string on whitespace runs (class token list). -/
def splitWSAux : List Char → List Char → List (List Char)
  | [], acc => if acc = [] then [] else [acc.reverse]
  | c :: rest, acc =>
    if isWS c then
      if acc = [] then splitWSAux rest [] else acc.reverse :: splitWSAux rest []
    else splitWSAux rest (c :: acc)

/-- The class token list of a class string. -/
def splitWS (s : List Char) : List (List Char) := splitWSAux s []

/-- Element class-token membership (the `.safe-web-masked` selector). -/
def hasClass (cls tok : List Char) : Bool := (splitWS cls).contains tok

/-- `/safe-web-[^\s]+/g` of the unmask fallback. -/
def safeWebClassRegex : Matcher :=
  mSeq (mLit "safe-web-".data) (mPlusCls (fun c => !isWS c))

/-- `element.className.replace(/safe-web-[^\s]+/g, "").trim()`. -/
def stripSafeWebClasses (cls : List Char) : List Char :=
  trimWS (replaceAll safeWebClassRegex (fun _ => []) cls)

mutual

/-- `unmaskAllElements()` on one node.  `querySelectorAll` collects matches
in document order, so an outer masked span is replaced (discarding its
subtree — the stored original stands in for it) before its descendants are
visited; descendants are only processed while still attached, i.e. when
the outer decode failed and the element was left in place. -/
def unmaskNode : DNode → DNode
  | DNode.text s => DNode.text s
  | DNode.span cls ty orig children =>
    if hasClass cls "safe-web-masked".data then
      match atobStr? orig with
      | some t => DNode.text t
      | none => DNode.span (stripSafeWebClasses cls) ty orig (unmaskNodeList children)
    else DNode.span cls ty orig (unmaskNodeList children)

/-- `unmaskAllElements()` over a sibling list. -/
def unmaskNodeList : List DNode → List DNode
  | [] => []
  | n :: rest => unmaskNode n :: unmaskNodeList rest

end

mutual

/-- `textContent` of a node: the concatenated visible text. -/
def visText : DNode → List Char
  | DNode.text s => s
  | DNode.span _ _ _ children => visTextList children

/-- `textContent` of a sibling list. -/
def visTextList : List DNode → List Char
  | [] => []
  | n :: rest => visText n ++ visTextList rest

end

/-!
## Interference-free reference semantics of the replace passes

`maskTextNode` iterates string-level replaces over a string that already
contains the markup of earlier passes.  The intended behaviour — later
passes rewrite only the visible plain text between earlier replacements —
is captured by the segment pipeline below; agreement of the real pipeline
with it (checked per input) is exactly "no pass matched inside another
pass's markup and no character data was reinterpreted by the HTML parse".
-/

/-- A reference segment: plain visible text, or one installed replacement
(category key, display class, matched text). -/
inductive MSeg where
  | plain : List Char → MSeg
  | marked (ty cls txt : List Char) : MSeg
deriving DecidableEq, Repr

/-- Coalesce adjacent plain segments and drop empty ones (the granularity
at which the DOM stores adjacent character data). -/
def coalesce : List MSeg → List MSeg
  | [] => []
  | MSeg.plain s :: rest =>
    if s = [] then coalesce rest
    else
      match coalesce rest with
      | MSeg.plain t :: more => MSeg.plain (s ++ t) :: more
      | more => MSeg.plain s :: more
  | MSeg.marked ty cls txt :: rest => MSeg.marked ty cls txt :: coalesce rest

/-- The visible text of a segment list. -/
def joinV : List MSeg → List Char
  | [] => []
  | MSeg.plain s :: rest => s ++ joinV rest
  | MSeg.marked _ _ txt :: rest => txt ++ joinV rest

/-- One category pass over a segment list: marked segments are opaque,
each plain segment is decomposed on its own; fails where `btoa` would. -/
def maskSegsPass (p : SWPattern) : List MSeg → Option (List MSeg)
  | [] => some []
  | MSeg.marked ty cls txt :: rest =>
    (maskSegsPass p rest).map (MSeg.marked ty cls txt :: ·)
  | MSeg.plain s :: rest =>
    if matchesLatin1 (replSegs p.matcher s) then
      (maskSegsPass p rest).map fun more =>
        ((replSegs p.matcher s).map fun seg =>
          match seg with
          | Seg.plain c => MSeg.plain [c]
          | Seg.matched t => MSeg.marked p.ptype p.className t) ++ more
    else none

/-- All category passes, at the reference segment level. -/
def maskSegs (pats : List SWPattern) (t : List Char) : Option (List MSeg) :=
  pats.foldlM (fun segs p => (maskSegsPass p segs).map coalesce) (coalesce [MSeg.plain t])

/-- The DOM fragment a reference segment stands for. -/
def msegToDom (s? : Option Settings) : MSeg → DNode
  | MSeg.plain s => DNode.text s
  | MSeg.marked ty cls txt =>
    DNode.span (maskingClassOf s? cls) ty (btoaBytes (txt.map Char.toNat)) [DNode.text txt]

/-- The DOM fragment a reference segment list stands for. -/
def msegsToDom (s? : Option Settings) (segs : List MSeg) : List DNode :=
  segs.map (msegToDom s?)

/-- All marked segments hold Latin-1 text (so their stored base64 decodes
back to them). -/
def msegsWF (segs : List MSeg) : Bool :=
  segs.all fun sg =>
    match sg with
    | MSeg.marked _ _ txt => txt.all (fun c => c.toNat < 256)
    | _ => true

/-!
## Scan pass over a masked region (`scanPage` / `scanTextNode` / guard)
-/

/-- A parent element together with the `maskedElements.has(parent)` flag
for it (`recorded`). -/
structure Region where
  nodes : List DNode
  recorded : Bool
deriving Repr

/-- `pattern.regex.test(text)` over all registry entries, as used by
`scanTextNode` to decide whether to call `maskTextNode` at all.  (The
source keeps `lastIndex` state on the shared `/g` regex objects across
`test` calls; a stale `lastIndex` can only make `test` miss a match, and
the first call per pattern starts at 0, which is what is modelled.) -/
def anyPatternMatches (pats : List SWPattern) (text : List Char) : Bool :=
  pats.any fun p =>
    (replSegs p.matcher text).any fun seg =>
      match seg with
      | Seg.matched _ => true
      | _ => false

/-- The length/emptiness eligibility test of the tree walker in
`getOptimizedTextNodes`: reject when the trimmed text is empty, the raw
length is below 5, or the raw length is above 1000. -/
def isEligibleText (text : List Char) : Bool :=
  !(decide (trimWS text = []) || decide (text.length < 5) || decide (1000 < text.length))

/-- One scan pass over a region's child list.  The tree walker yields the
region's top-level text nodes (text inside `.safe-web-masked` spans is
rejected by the `closest` exclusion), each eligible matching node goes
through `maskTextNode` with the `maskedElements.has(parent)` guard
(`recorded`); a replacement parses the masked HTML into a fragment and
records the parent.  `none` models runs outside the fragment grammar. -/
def maskRegionGo (s? : Option Settings) (pats : List SWPattern) :
    Bool → List DNode → Option (Bool × List DNode)
  | rec, [] => some (rec, [])
  | rec, DNode.text s :: rest =>
    if isEligibleText s && anyPatternMatches pats s then
      if rec then
        (maskRegionGo s? pats rec rest).map fun pr => (pr.1, DNode.text s :: pr.2)
      else
        match maskTextNodeHTML s? pats s with
        | none => none
        | some html =>
          if html = s then
            (maskRegionGo s? pats rec rest).map fun pr => (pr.1, DNode.text s :: pr.2)
          else
            match parseHTML? html with
            | none => none
            | some frag =>
              (maskRegionGo s? pats true rest).map fun pr => (pr.1, frag ++ pr.2)
    else
      (maskRegionGo s? pats rec rest).map fun pr => (pr.1, DNode.text s :: pr.2)
  | rec, DNode.span cls ty orig children :: rest =>
    (maskRegionGo s? pats rec rest).map fun pr =>
      (pr.1, DNode.span cls ty orig children :: pr.2)

/-- One scan pass over a region. -/
def maskRegionPass (s? : Option Settings) (pats : List SWPattern) (r : Region) :
    Option Region :=
  (maskRegionGo s? pats r.recorded r.nodes).map fun pr => ⟨pr.2, pr.1⟩

/-!
## Scan Coordinator (`handleSettingsUpdate`, `stopMasking`, `startMasking`)
-/

/-- The externally visible side effects the coordinator can emit. -/
inductive CAction where
  | unmaskAll
  | hideIndicator
  | clearProcessed
  | scheduleScan
  | showIndicator
deriving DecidableEq, Repr

/-- `stopMasking()`: `unmaskAllElements()`, `hideMaskingIndicator()`,
`this.processedNodes = new WeakSet()`. -/
def stopMaskingActions : List CAction :=
  [CAction.unmaskAll, CAction.hideIndicator, CAction.clearProcessed]

/-- `startMasking()`: `await this.throttledScanPage()`,
`this.showMaskingIndicator()`. -/
def startMaskingActions : List CAction :=
  [CAction.scheduleScan, CAction.showIndicator]

/-- The coordinator state `handleSettingsUpdate` touches. -/
structure CoordState where
  settings : Option Settings
  maskingActive : Bool
deriving DecidableEq, Repr

/-- `handleSettingsUpdate(newSettings)` (content.js lines 290–307): the
new state and the emitted side-effect trace. -/
def handleSettingsUpdate (st : CoordState) (newSettings : Settings) :
    CoordState × List CAction :=
  let oldMaskingState := st.maskingActive
  let active := newSettings.maskingEnabled
  let st2 : CoordState := ⟨some newSettings, active⟩
  if oldMaskingState ≠ active then
    if active then (st2, startMaskingActions) else (st2, stopMaskingActions)
  else if active then (st2, stopMaskingActions ++ [CAction.scheduleScan])
  else (st2, [])

/-- The enabled category identifiers of a settings value (used to compare
"the enabled/disabled category set changed" between two settings). -/
def enabledCategories (s : Settings) : List (List Char) :=
  (getSensitivePatterns (some s)).map (·.ptype)

/-!
## Incremental Change Monitor (`setupOptimizedMutationObserver`,
`debouncedScanNewContent`)
-/

/-- The argument object of `addCustomPattern`. -/
structure NewPatternInput where
  name : List Char
  regex : List Char
  description : List Char
deriving DecidableEq, Repr

/-- `addCustomPattern(pattern)`: rejected with `setError` when the name
collides with an existing custom pattern, otherwise a fresh enabled
`CustomPattern` (id from `Date.now().toString()`, timestamp from
`new Date().toISOString()`, both passed in) is appended and persisted
(persistence itself is modelled as succeeding).  Result components:
success flag, resulting settings, reported error. -/
def addCustomPattern (s : Settings) (pattern : NewPatternInput)
    (nowId createdAt : List Char) : Bool × Settings × Option (List Char) :=
  let customPatterns := s.sensitivePatterns.customPatterns
  if customPatterns.any (fun p => p.name = pattern.name) then
    (false, s, some "Pattern with this name already exists".data)
  else
    let cp : CustomPattern :=
      ⟨nowId, pattern.name, pattern.regex, pattern.description, true, createdAt⟩
    (true,
     { s with sensitivePatterns :=
        { s.sensitivePatterns with customPatterns := customPatterns ++ [cp] } },
     none)

/-!
## Derived observations and concrete fixtures
-/

/-- The registry as (category, display class) pairs. -/
def registryPairs (pats : List SWPattern) : List (List Char × List Char) :=
  pats.map fun p => (p.ptype, p.className)

/-- Modelled from the spec (§4.1, the claim under scrutiny): the category
identifiers the registry is claimed to contain — the enabled built-ins
plus the name of every enabled custom pattern. -/
def claimedRegistryKeys (s : Settings) : List (List Char) :=
  (if s.sensitivePatterns.email then ["email".data] else []) ++
  (if s.sensitivePatterns.phone then ["phone".data] else []) ++
  (if s.sensitivePatterns.ssn then ["ssn".data] else []) ++
  (if s.sensitivePatterns.creditCard then ["creditCard".data] else []) ++
  (s.sensitivePatterns.customPatterns.filter (·.enabled)).map (·.name)

/-- The built-in part of `claimedRegistryKeys` paired with the display
classes the source assigns. -/
def enabledBuiltinEntries (s : Settings) : List (List Char × List Char) :=
  (if s.sensitivePatterns.email then
    [("email".data, "safe-web-masked-email".data)] else []) ++
  (if s.sensitivePatterns.phone then
    [("phone".data, "safe-web-masked-phone".data)] else []) ++
  (if s.sensitivePatterns.ssn then
    [("ssn".data, "safe-web-masked-ssn".data)] else []) ++
  (if s.sensitivePatterns.creditCard then
    [("creditCard".data, "safe-web-masked-card".data)] else [])

mutual

/-- The class attributes of all `span` elements of a fragment, in document
order (outermost first). -/
def spanClasses : DNode → List (List Char)
  | DNode.text _ => []
  | DNode.span cls _ _ children => cls :: spanClassesList children

/-- `spanClasses` over a sibling list. -/
def spanClassesList : List DNode → List (List Char)
  | [] => []
  | n :: rest => spanClasses n ++ spanClassesList rest

end

/-- The default settings object initialised by `background.js` and
`useSettings` (restricted to the fields the masking core reads). -/
def defaultSettings : Settings :=
  { maskingEnabled := false
    maskingStyle := "blur".data
    maskingIntensity := 5
    sensitivePatterns :=
      { email := true, phone := true, ssn := true, creditCard := true,
        names := false, addresses := false, customPatterns := [] } }

/-- Default settings with masking switched on. -/
def activeSettings : Settings := { defaultSettings with maskingEnabled := true }

/-- Active settings with only the email category enabled. -/
def emailOnlySettings : Settings :=
  { activeSettings with
    sensitivePatterns :=
      { activeSettings.sensitivePatterns with
        phone := false, ssn := false, creditCard := false } }

/-- Active settings with only the email and phone categories enabled. -/
def emailPhoneSettings : Settings :=
  { activeSettings with
    sensitivePatterns :=
      { activeSettings.sensitivePatterns with ssn := false, creditCard := false } }

/-- A stored custom pattern named `internal-id`. -/
def internalIdStored : CustomPattern :=
  ⟨"1736500000000".data, "internal-id".data, "INTERNAL-[0-9]+".data,
   "first rule".data, true, "2025-01-10T00:00:00.000Z".data⟩

/-- Default settings carrying the enabled custom pattern `internal-id`. -/
def customEnabledSettings : Settings :=
  { defaultSettings with
    sensitivePatterns :=
      { defaultSettings.sensitivePatterns with customPatterns := [internalIdStored] } }

/-- Round-trip counterexample input: the text carries a literal `&amp;`
sequence that the `innerHTML` assignment re-parses. -/
def ampInput : List Char := "mask me &amp; a@b.com thanks".data

/-- Overlap input: the email rule (registered first) matches the whole of
`123-456-7890@mail.com`; the phone rule then matches `123-456-7890`
inside the installed replacement's visible text. -/
def overlapInput : List Char := "Call 123-456-7890@mail.com today".data

/-- The spec's scenario text. -/
def scenarioInput : List Char := "Contact me at a@b.com or 555-123-4567".data

/-- The reference decomposition of `scenarioInput` under the default
category set (the email and phone rules match one substring each). -/
def scenarioSegs : List MSeg :=
  [MSeg.plain "Contact me at ".data,
   MSeg.marked "email".data "safe-web-masked-email".data "a@b.com".data,
   MSeg.plain " or ".data,
   MSeg.marked "phone".data "safe-web-masked-phone".data "555-123-4567".data]

/-- A replace decomposition covers the input exactly: concatenating the
segment contents gives back the string (for any fuel). -/
theorem replSegsAux_join (m : Matcher) :
    ∀ (fuel : Nat) (rest : List Char) (prev : Option Char),
      ((replSegsAux m fuel prev rest).flatMap Seg.content) = rest := by
  intro fuel
  induction fuel with
  | zero =>
    intro rest prev
    induction rest with
    | nil => rfl
    | cons c rtail ih => simp_all [replSegsAux, Seg.content]
  | succ n ih =>
    intro rest prev
    match rest with
    | [] => rfl
    | c :: rtail =>
      rw [replSegsAux]
      cases hm : (m prev (c :: rtail)).head? with
      | none =>
        simp only [List.flatMap_cons, Seg.content]
        rw [ih rtail (some c)]
        rfl
      | some k =>
        by_cases hk : k = 0 ∨ (c :: rtail).length < k
        · simp only [if_pos hk, List.flatMap_cons, Seg.content]
          rw [ih rtail (some c)]
          rfl
        · simp only [if_neg hk, List.flatMap_cons, Seg.content]
          rw [ih ((c :: rtail).drop k) (prevAfter prev (c :: rtail) k)]
          exact List.take_append_drop ..

/-- Whole-string version of `replSegsAux_join`. -/
theorem replSegs_join (m : Matcher) (s : List Char) :
    (replSegs m s).flatMap Seg.content = s :=
  replSegsAux_join m s.length s none

theorem b64Val_char : ∀ n : Nat, n < 64 → b64Val? (b64Char n) = some n := by decide

theorem b64Char_ne_eq : ∀ n : Nat, n < 64 → (b64Char n = '=') = False := by decide

/-- `atob` is a left inverse of `btoa` on byte lists. -/
theorem atob_btoaBytes :
    ∀ (n : Nat) (bs : List Nat), bs.length ≤ n → (∀ x ∈ bs, x < 256) →
      atobBytes? (btoaBytes bs) = some bs := by
  intro n
  induction n with
  | zero =>
    intro bs h _
    have : bs = [] := List.eq_nil_of_length_eq_zero (Nat.le_zero.mp h)
    subst this
    rfl
  | succ n ih =>
    intro bs hlen hmem
    match bs with
    | [] => rfl
    | [a] =>
      have ha : a < 256 := hmem a (by simp)
      have e1 : a / 4 * 4 + a % 4 * 16 / 16 = a := by omega
      simp [btoaBytes, atobBytes?, b64Val_char (a / 4) (by omega),
        b64Val_char (a % 4 * 16) (by omega), e1]
      omega
    | [a, b] =>
      have ha : a < 256 := hmem a (by simp)
      have hb : b < 256 := hmem b (by simp)
      have h1 : a / 4 * 4 + (a % 4 * 16 + b / 16) / 16 = a := by omega
      have h2 : (a % 4 * 16 + b / 16) % 16 * 16 + b % 16 * 4 / 4 = b := by omega
      simp [btoaBytes, atobBytes?, b64Val_char (a / 4) (by omega),
        b64Val_char (a % 4 * 16 + b / 16) (by omega),
        b64Val_char (b % 16 * 4) (by omega),
        b64Char_ne_eq (b % 16 * 4) (by omega), h1, h2]
      omega
    | a :: b :: c :: rest =>
      have ha : a < 256 := hmem a (by simp)
      have hb : b < 256 := hmem b (by simp)
      have hc : c < 256 := hmem c (by simp)
      have hrest : ∀ x ∈ rest, x < 256 := fun x hx => hmem x (by simp [hx])
      have hrlen : rest.length ≤ n := by simp at hlen; omega
      have hrec := ih rest hrlen hrest
      have h1 : a / 4 * 4 + (a % 4 * 16 + b / 16) / 16 = a := by omega
      have h2 : (a % 4 * 16 + b / 16) % 16 * 16 + (b % 16 * 4 + c / 64) / 4 = b := by omega
      have h3 : (b % 16 * 4 + c / 64) % 4 * 64 + c % 64 = c := by omega
      simp only [btoaBytes]
      match hbt : btoaBytes rest with
      | [] =>
        rw [hbt] at hrec
        have hrest0 : rest = [] := by
          have : atobBytes? ([] : List Char) = some [] := rfl
          rw [this] at hrec
          exact (Option.some_inj.mp hrec).symm
        subst hrest0
        simp [atobBytes?, b64Val_char (a / 4) (by omega),
          b64Val_char (a % 4 * 16 + b / 16) (by omega),
          b64Val_char (b % 16 * 4 + c / 64) (by omega),
          b64Val_char (c % 64) (by omega),
          b64Char_ne_eq (c % 64) (by omega), h1, h2, h3]
        try omega
      | x :: xs =>
        rw [hbt] at hrec
        simp [atobBytes?, b64Val_char (a / 4) (by omega),
          b64Val_char (a % 4 * 16 + b / 16) (by omega),
          b64Val_char (b % 16 * 4 + c / 64) (by omega),
          b64Val_char (c % 64) (by omega),
          b64Char_ne_eq (c % 64) (by omega), hrec, h1, h2, h3]
        try omega

/-- `atob` is a left inverse of `btoa` on Latin-1 strings. -/
theorem atob_btoaStr (s : List Char) (h : s.all (fun c => c.toNat < 256)) :
    atobStr? (btoaBytes (s.map Char.toNat)) = some s := by
  unfold atobStr?
  rw [atob_btoaBytes (s.map Char.toNat).length _ (Nat.le_refl _)]
  · clear h
    induction s with
    | nil => rfl
    | cons c cs ihs => simp_all
  · intro x hx
    simp only [List.mem_map] at hx
    obtain ⟨c, hc, rfl⟩ := hx
    simp only [List.all_eq_true] at h
    have := h c hc
    simpa using this

/-- Recorded-parent guard: with `maskedElements.has(parent)` set, the scan
pass keeps every node of the region unchanged (shared by C2 and C10). -/
theorem maskRegionGo_recorded (s? : Option Settings) (pats : List SWPattern) :
    ∀ ns : List DNode, maskRegionGo s? pats true ns = some (true, ns) := by
  intro ns
  induction ns with
  | nil => rfl
  | cons n rest ih =>
    cases n with
    | text s =>
      unfold maskRegionGo
      by_cases h : (isEligibleText s && anyPatternMatches pats s) = true
      · simp [h, ih]
      · simp [h, ih]
    | span cls ty orig children =>
      unfold maskRegionGo
      simp [ih]

/-- A pass started with the guard clear either changes nothing or ends
with the parent recorded. -/
theorem maskRegionGo_fresh (s? : Option Settings) (pats : List SWPattern) :
    ∀ (ns : List DNode) (b : Bool) (ns' : List DNode),
      maskRegionGo s? pats false ns = some (b, ns') →
      (b = false ∧ ns' = ns) ∨ b = true := by
  intro ns
  induction ns with
  | nil =>
    intro b ns' h
    simp [maskRegionGo] at h
    exact Or.inl ⟨h.1, h.2⟩
  | cons n rest ih =>
    intro b ns' h
    cases n with
    | span cls ty orig children =>
      unfold maskRegionGo at h
      rw [Option.map_eq_some'] at h
      obtain ⟨pr, hgo, hpr⟩ := h
      injection hpr with h1 h2
      subst h1
      subst h2
      rcases ih pr.1 pr.2 hgo with ⟨hb, hn⟩ | hb
      · left; exact ⟨hb, by rw [hn]⟩
      · right; exact hb
    | text s =>
      unfold maskRegionGo at h
      by_cases hc : (isEligibleText s && anyPatternMatches pats s) = true
      · rw [if_pos hc] at h
        simp only [Bool.false_eq_true, if_false] at h
        split at h
        · exact absurd h (by simp)
        · next html hhtml =>
          by_cases heq : html = s
          · rw [if_pos heq] at h
            rw [Option.map_eq_some'] at h
            obtain ⟨pr, hgo, hpr⟩ := h
            injection hpr with h1 h2
            subst h1
            subst h2
            rcases ih pr.1 pr.2 hgo with ⟨hb, hn⟩ | hb
            · left; exact ⟨hb, by rw [hn]⟩
            · right; exact hb
          · rw [if_neg heq] at h
            split at h
            · exact absurd h (by simp)
            · next frag hfrag =>
              rw [Option.map_eq_some'] at h
              obtain ⟨pr, hgo, hpr⟩ := h
              rw [maskRegionGo_recorded s? pats rest] at hgo
              injection hpr with h1 h2
              subst h1
              have : pr = (true, rest) := by
                injection hgo with hh
                exact hh.symm
              right
              rw [this]
      · rw [if_neg hc] at h
        rw [Option.map_eq_some'] at h
        obtain ⟨pr, hgo, hpr⟩ := h
        injection hpr with h1 h2
        subst h1
        subst h2
        rcases ih pr.1 pr.2 hgo with ⟨hb, hn⟩ | hb
        · left; exact ⟨hb, by rw [hn]⟩
        · right; exact hb

/-!
## C2 — masking is idempotent on an already-masked region
-/

/-- C2: running the scan-and-mask pass a second time over a region that a
first pass has already processed changes nothing: text nodes inside the
engine's own output are excluded by the tree walker's `closest`
predicate, and the region's remaining text children fall to the
`maskedElements.has(parent)` guard (or to the unchanged-text branch), so
`mask(mask(T,P),P) = mask(T,P)`. -/
theorem mask_pass_idempotent (s? : Option Settings) (pats : List SWPattern)
    (t : List Char) (r : Region)
    (h : maskRegionPass s? pats ⟨[DNode.text t], false⟩ = some r) :
    maskRegionPass s? pats r = some r := by
  unfold maskRegionPass at h ⊢
  rw [Option.map_eq_some'] at h
  obtain ⟨pr, hgo, hr⟩ := h
  rcases maskRegionGo_fresh s? pats _ pr.1 pr.2 hgo with ⟨hb, hn⟩ | hb
  · cases hr
    simp only [hb, hn] at hgo ⊢
    rw [hgo]
    simp [hb, hn]
  · cases hr
    simp only [hb]
    rw [maskRegionGo_recorded s? pats pr.2]
    simp

/-- C2 witness: the spec's scenario text, all four categories enabled —
the first pass masks both sensitive substrings, the second pass is the
identity on the produced region. -/
theorem mask_pass_idempotent_witness :
    (maskRegionPass (some activeSettings) (getSensitivePatterns (some activeSettings))
        ⟨[DNode.text scenarioInput], false⟩).isSome = true ∧
    (∀ r, maskRegionPass (some activeSettings) (getSensitivePatterns (some activeSettings))
        ⟨[DNode.text scenarioInput], false⟩ = some r →
      maskRegionPass (some activeSettings) (getSensitivePatterns (some activeSettings)) r = some r) :=
  ⟨by decide, fun r h => mask_pass_idempotent _ _ _ r h⟩

/-!
## C10 — one mask record per parent; later leaves under it are untouched
-/

/-- C10: once a parent element is in the masked-elements map, the scan
pass leaves every remaining text node under it — sensitive or not —
completely unchanged: no DOM modification and no new record. -/
theorem masked_parent_never_remasked (s? : Option Settings) (pats : List SWPattern)
    (ns : List DNode) :
    maskRegionPass s? pats ⟨ns, true⟩ = some ⟨ns, true⟩ := by
  unfold maskRegionPass
  rw [maskRegionGo_recorded s? pats ns]
  rfl

/-!
## C7 — text-leaf eligibility bounds
-/

/-- C7 counterexample: `"  ab "` has raw length 5 but trimmed length 2;
the claim says a leaf whose trimmed content is shorter than
`minTextLength = 5` is not eligible, yet the walker accepts it (the
source tests `text.length`, not the trimmed length). -/
theorem eligibility_trimmed_counterexample :
    isEligibleText "  ab ".data = true ∧ (trimWS "  ab ".data).length < 5 := by decide

/-- C7 amended: a text leaf is eligible iff its trimmed content is
nonempty and its RAW length lies within `[5, 1000]`; in particular a leaf
of raw length exactly 5 is eligible and one of raw length 4 is not, but
the bounds are not applied to the trimmed length. -/
theorem eligibility_raw_length_bounds (text : List Char) :
    isEligibleText text =
      (decide (trimWS text ≠ []) && decide (5 ≤ text.length) &&
        decide (text.length ≤ 1000)) := by
  unfold isEligibleText
  by_cases h1 : trimWS text = [] <;>
    by_cases h2 : text.length < 5 <;>
      by_cases h3 : 1000 < text.length <;>
        simp [h1, h2, h3] <;> omega

/-!
## C9 — duplicate custom-pattern names are rejected
-/

/-- C9: adding a custom pattern whose name equals an existing custom
pattern's name fails: the result reports the name-collision error and the
settings (in particular the stored pattern with that name) are returned
unchanged. -/
theorem addCustomPattern_name_collision (s : Settings) (pattern : NewPatternInput)
    (nowId createdAt : List Char)
    (h : ∃ q ∈ s.sensitivePatterns.customPatterns, q.name = pattern.name) :
    addCustomPattern s pattern nowId createdAt =
      (false, s, some "Pattern with this name already exists".data) := by
  unfold addCustomPattern
  have hany : (s.sensitivePatterns.customPatterns.any
      (fun p => p.name = pattern.name)) = true := by
    obtain ⟨q, hq, he⟩ := h
    exact List.any_eq_true.mpr ⟨q, hq, by simp [he]⟩
  simp [hany]

/-- C9 witness: `internal-id` added a second time with a different rule is
rejected and the first stored `internal-id` pattern is unchanged. -/
theorem addCustomPattern_name_collision_witness :
    (∃ q ∈ customEnabledSettings.sensitivePatterns.customPatterns,
        q.name = ("internal-id".data : List Char)) ∧
    addCustomPattern customEnabledSettings
        ⟨"internal-id".data, "ID-[a-z]+".data, "second rule".data⟩
        "1736600000000".data "2025-01-11T00:00:00.000Z".data =
      (false, customEnabledSettings,
        some "Pattern with this name already exists".data) :=
  ⟨by decide,
   addCustomPattern_name_collision customEnabledSettings
     ⟨"internal-id".data, "ID-[a-z]+".data, "second rule".data⟩
     "1736600000000".data "2025-01-11T00:00:00.000Z".data (by decide)⟩

/-!
## C5 — settings updates while masking is active
-/

/-- C5 counterexample: a settings update that changes only the masking
style (the enabled category set is identical) nevertheless clears the
processed set and schedules a full re-scan — the claim says a style-only
update re-renders in place without re-scanning and without invalidating
the `ProcessedSet`. -/
theorem style_only_update_rescans_counterexample :
    enabledCategories { activeSettings with maskingStyle := "pixelate".data } =
      enabledCategories activeSettings ∧
    (handleSettingsUpdate ⟨some activeSettings, true⟩
        { activeSettings with maskingStyle := "pixelate".data }).2 =
      [CAction.unmaskAll, CAction.hideIndicator, CAction.clearProcessed,
       CAction.scheduleScan] := by
  constructor
  · rfl
  · rfl

/-- C5 amended: while masking stays active, EVERY settings update — it
does not matter which fields changed — runs `stopMasking()` (unmask all,
hide the indicator, clear the processed set) followed by a throttled full
re-scan; there is no re-render-in-place path. -/
theorem settings_update_while_active (st : CoordState) (newSettings : Settings)
    (h1 : st.maskingActive = true) (h2 : newSettings.maskingEnabled = true) :
    handleSettingsUpdate st newSettings =
      (⟨some newSettings, true⟩,
       [CAction.unmaskAll, CAction.hideIndicator, CAction.clearProcessed,
        CAction.scheduleScan]) := by
  unfold handleSettingsUpdate
  simp [h1, h2, stopMaskingActions]

/-- C5 witness: a category-set change while active (credit card disabled)
likewise stops and re-scans. -/
theorem settings_update_while_active_witness :
    handleSettingsUpdate ⟨some activeSettings, true⟩
        { activeSettings with
          sensitivePatterns :=
            { activeSettings.sensitivePatterns with creditCard := false } } =
      (⟨some { activeSettings with
          sensitivePatterns :=
            { activeSettings.sensitivePatterns with creditCard := false } }, true⟩,
       [CAction.unmaskAll, CAction.hideIndicator, CAction.clearProcessed,
        CAction.scheduleScan]) :=
  settings_update_while_active _ _ rfl rfl

/-!
## C3 — what the derived pattern registry contains
-/

/-- C3 counterexample: with an enabled custom pattern `internal-id`
stored in the settings, the derived registry does not contain it — the
content script's `getSensitivePatterns` never reads
`sensitivePatterns.customPatterns`. -/
theorem registry_ignores_custom_patterns_counterexample :
    ("internal-id".data : List Char) ∈ claimedRegistryKeys customEnabledSettings ∧
    ("internal-id".data : List Char) ∉ enabledCategories customEnabledSettings ∧
    enabledCategories customEnabledSettings ≠
      claimedRegistryKeys customEnabledSettings := by decide

/-- C3 amended: for every settings value the derived registry contains
exactly the built-in categories enabled in the settings — email, phone,
ssn, creditCard, in registration order, each with its display class (and
a compiled rule) — and nothing else; enabled custom patterns are NOT
compiled into the registry. -/
theorem registry_is_enabled_builtins (s : Settings) :
    registryPairs (getSensitivePatterns (some s)) = enabledBuiltinEntries s := by
  rcases s with ⟨me, ms, mi, ⟨e, p, sn, cc, nm, ad, cp⟩⟩
  cases e <;> cases p <;> cases sn <;> cases cc <;> rfl

/-!
## C8 — unmasking decodes or falls back, never raises
-/

/-- C8: `unmaskAllElements` on an element carrying the masking class is
total (the decode is the only fallible step and it is guarded): if the
stored original decodes, the element is replaced by a plain text node
holding exactly the decoded text; if decoding fails, the element stays,
only its `safe-web-*` class tokens are stripped, and its own text
content is left untouched (descendants are still visited, as the live
`querySelectorAll` loop does). -/
theorem unmask_decodes_or_strips (cls ty orig : List Char) (children : List DNode)
    (hm : hasClass cls "safe-web-masked".data = true) :
    (∀ t, atobStr? orig = some t →
      unmaskNode (DNode.span cls ty orig children) = DNode.text t) ∧
    (atobStr? orig = none →
      unmaskNode (DNode.span cls ty orig children) =
        DNode.span (stripSafeWebClasses cls) ty orig (unmaskNodeList children) ∧
      ∀ s, children = [DNode.text s] →
        visText (unmaskNode (DNode.span cls ty orig children)) =
          visText (DNode.span cls ty orig children)) := by
  constructor
  · intro t ht
    unfold unmaskNode
    rw [if_pos hm, ht]
  · intro hfail
    constructor
    · unfold unmaskNode
      rw [if_pos hm, hfail]
    · intro s hs
      subst hs
      unfold unmaskNode
      rw [if_pos hm, hfail]
      simp [visText, visTextList, unmaskNodeList, unmaskNode]

/-- C8 witness: a well-formed masked span (stored original `btoa("a@b.com")`)
decodes back to `a@b.com`; a foreign element whose stored attribute is the
string `undefined` fails to decode and only loses its `safe-web-*`
classes, keeping its text. -/
theorem unmask_decodes_or_strips_witness :
    unmaskNode (DNode.span "safe-web-masked safe-web-masked-email safe-web-blur-5".data
        "email".data "YUBiLmNvbQ==".data [DNode.text "a@b.com".data]) =
      DNode.text "a@b.com".data ∧
    (unmaskNode (DNode.span "safe-web-masked keep".data "email".data
        "undefined".data [DNode.text "hello".data]) =
      DNode.span "keep".data "email".data "undefined".data
        [DNode.text "hello".data] ∧
     visText (unmaskNode (DNode.span "safe-web-masked keep".data "email".data
        "undefined".data [DNode.text "hello".data])) = "hello".data) := by
  refine ⟨?_, ?_, ?_⟩
  · exact (unmask_decodes_or_strips _ _ _ _ (by decide)).1 _ (by decide)
  · have h := (unmask_decodes_or_strips "safe-web-masked keep".data "email".data
      "undefined".data [DNode.text "hello".data] (by decide)).2 (by decide)
    rw [h.1]
    have : stripSafeWebClasses "safe-web-masked keep".data = "keep".data := by decide
    rw [this]
    rfl
  · have h := (unmask_decodes_or_strips "safe-web-masked keep".data "email".data
      "undefined".data [DNode.text "hello".data] (by decide)).2 (by decide)
    exact h.2 "hello".data rfl

/-!
## C6 — mutation bursts and the debounce timer
-/

/-- joinV distributes over append. -/
theorem joinV_append : ∀ a b : List MSeg, joinV (a ++ b) = joinV a ++ joinV b := by
  intro a b
  induction a with
  | nil => rfl
  | cons sg rest ih => cases sg <;> simp [joinV, ih]

/-- Coalescing preserves the visible text. -/
theorem coalesce_joinV : ∀ segs : List MSeg, joinV (coalesce segs) = joinV segs := by
  intro segs
  induction segs with
  | nil => rfl
  | cons sg rest ih =>
    cases sg with
    | marked ty cls txt => simp [coalesce, joinV, ih]
    | plain s =>
      by_cases hs : s = []
      · subst hs; simp [coalesce, joinV, ih]
      · simp only [coalesce, if_neg hs]
        cases hc : coalesce rest with
        | nil =>
          have hjr : joinV rest = ([] : List Char) := by rw [← ih, hc]; rfl
          simp [joinV, hjr]
        | cons t more =>
          cases t with
          | plain t2 =>
            have hjr : joinV rest = t2 ++ joinV more := by rw [← ih, hc]; simp [joinV]
            simp [joinV, hjr, List.append_assoc]
          | marked ty cls txt =>
            have hjr : joinV rest = txt ++ joinV more := by rw [← ih, hc]; simp [joinV]
            simp [joinV, hjr]

/-- The visible text of one decomposed plain segment is the segment
contents. -/
theorem segs_flat_joinV (ty cls : List Char) :
    ∀ segs : List Seg,
      joinV (segs.map fun seg =>
        match seg with
        | Seg.plain c => MSeg.plain [c]
        | Seg.matched t => MSeg.marked ty cls t) = segs.flatMap Seg.content := by
  intro segs
  induction segs with
  | nil => rfl
  | cons sg rest ih => cases sg <;> simp [joinV, Seg.content, ih]

/-- One reference pass preserves the visible text. -/
theorem maskSegsPass_joinV (p : SWPattern) :
    ∀ segs segs' : List MSeg, maskSegsPass p segs = some segs' →
      joinV segs' = joinV segs := by
  intro segs
  induction segs with
  | nil =>
    intro segs' h
    simp [maskSegsPass] at h
    rw [← h]
  | cons sg rest ih =>
    intro segs' h
    cases sg with
    | marked ty cls txt =>
      simp only [maskSegsPass] at h
      rw [Option.map_eq_some'] at h
      obtain ⟨more, hrest, hh⟩ := h
      subst hh
      simp [joinV, ih more hrest]
    | plain s =>
      simp only [maskSegsPass] at h
      by_cases hl : matchesLatin1 (replSegs p.matcher s) = true
      · rw [if_pos hl] at h
        rw [Option.map_eq_some'] at h
        obtain ⟨more, hrest, hh⟩ := h
        subst hh
        rw [joinV_append, segs_flat_joinV, replSegs_join, joinV, ih more hrest]
      · rw [if_neg hl] at h
        exact absurd h (by simp)

/-- The folded reference passes preserve the visible text. -/
theorem maskSegs_fold_joinV :
    ∀ (pats : List SWPattern) (acc segs' : List MSeg),
      List.foldlM (fun segs p => (maskSegsPass p segs).map coalesce) acc pats =
        some segs' →
      joinV segs' = joinV acc := by
  intro pats
  induction pats with
  | nil =>
    intro acc segs' h
    simp at h
    rw [← h]
  | cons p rest ih =>
    intro acc segs' h
    rw [List.foldlM_cons] at h
    cases hp : maskSegsPass p acc with
    | none => rw [hp] at h; simp at h
    | some mid =>
      rw [hp] at h
      simp only [Option.map_some', Option.bind_eq_bind, Option.some_bind] at h
      rw [ih (coalesce mid) segs' h, coalesce_joinV, maskSegsPass_joinV p acc mid hp]

/-- The reference pipeline preserves the visible text end to end. -/
theorem maskSegs_joinV (pats : List SWPattern) (t : List Char) (segs : List MSeg)
    (h : maskSegs pats t = some segs) : joinV segs = t := by
  unfold maskSegs at h
  rw [maskSegs_fold_joinV pats (coalesce [MSeg.plain t]) segs h, coalesce_joinV]
  simp [joinV]

/-- msegsWF ignores plain segments. -/
theorem msegsWF_cons_plain (s : List Char) (l : List MSeg) :
    msegsWF (MSeg.plain s :: l) = msegsWF l := by
  simp [msegsWF]

/-- msegsWF on a marked segment. -/
theorem msegsWF_cons_marked (ty cls txt : List Char) (l : List MSeg) :
    msegsWF (MSeg.marked ty cls txt :: l) =
      ((txt.all fun c => c.toNat < 256) && msegsWF l) := by
  simp [msegsWF]

/-- Coalescing preserves well-formedness. -/
theorem coalesce_wf : ∀ segs : List MSeg, msegsWF segs = true →
    msegsWF (coalesce segs) = true := by
  intro segs
  induction segs with
  | nil => intro h; exact h
  | cons sg rest ih =>
    intro h
    have hr : msegsWF rest = true := by
      simp only [msegsWF, List.all_cons, Bool.and_eq_true] at h
      exact h.2
    cases sg with
    | marked ty cls txt =>
      have ht : (txt.all fun c => c.toNat < 256) = true := by
        rw [msegsWF_cons_marked] at h
        exact (Bool.and_eq_true .. |>.mp h).1
      show msegsWF (MSeg.marked ty cls txt :: coalesce rest) = true
      rw [msegsWF_cons_marked, ht, ih hr]
      rfl
    | plain s =>
      rw [msegsWF_cons_plain] at h
      by_cases hs : s = []
      · subst hs; simp only [coalesce, if_pos rfl]; exact ih h
      · simp only [coalesce, if_neg hs]
        cases hc : coalesce rest with
        | nil => rfl
        | cons t more =>
          have hcw : msegsWF (t :: more) = true := hc ▸ ih h
          cases t with
          | plain t2 =>
            rw [msegsWF_cons_plain] at hcw ⊢
            exact hcw
          | marked ty cls txt =>
            exact hcw

/-- The decomposition of a plain segment whose matches are all Latin-1 is
well-formed. -/
theorem segs_flat_wf (ty cls : List Char) :
    ∀ segs : List Seg, matchesLatin1 segs = true →
      msegsWF (segs.map fun seg =>
        match seg with
        | Seg.plain c => MSeg.plain [c]
        | Seg.matched t => MSeg.marked ty cls t) = true := by
  intro segs
  induction segs with
  | nil => intro _; rfl
  | cons sg rest ih =>
    intro h
    simp only [matchesLatin1, List.all_cons, Bool.and_eq_true] at h
    cases sg with
    | plain c =>
      rw [List.map_cons]
      show msegsWF (MSeg.plain [c] :: _) = true
      rw [msegsWF_cons_plain]
      exact ih h.2
    | matched t =>
      rw [List.map_cons]
      show msegsWF (MSeg.marked ty cls t :: _) = true
      rw [msegsWF_cons_marked]
      have h1 : (t.all fun c => c.toNat < 256) = true := h.1
      rw [h1, ih h.2]
      rfl

/-- msegsWF distributes over append. -/
theorem msegsWF_append (a b : List MSeg) :
    msegsWF (a ++ b) = (msegsWF a && msegsWF b) := by
  simp [msegsWF, List.all_append]

/-- One reference pass preserves well-formedness. -/
theorem maskSegsPass_wf (p : SWPattern) :
    ∀ segs segs' : List MSeg, msegsWF segs = true →
      maskSegsPass p segs = some segs' → msegsWF segs' = true := by
  intro segs
  induction segs with
  | nil =>
    intro segs' _ h
    simp [maskSegsPass] at h
    subst h
    rfl
  | cons sg rest ih =>
    intro segs' hwf h
    have hr : msegsWF rest = true := by
      simp only [msegsWF, List.all_cons, Bool.and_eq_true] at hwf
      exact hwf.2
    cases sg with
    | marked ty cls txt =>
      have ht : (txt.all fun c => c.toNat < 256) = true := by
        simp only [msegsWF, List.all_cons, Bool.and_eq_true] at hwf
        exact hwf.1
      simp only [maskSegsPass] at h
      rw [Option.map_eq_some'] at h
      obtain ⟨more, hrest, hh⟩ := h
      subst hh
      simp only [msegsWF, List.all_cons, Bool.and_eq_true]
      exact ⟨ht, ih more hr hrest⟩
    | plain s =>
      simp only [maskSegsPass] at h
      by_cases hl : matchesLatin1 (replSegs p.matcher s) = true
      · rw [if_pos hl] at h
        rw [Option.map_eq_some'] at h
        obtain ⟨more, hrest, hh⟩ := h
        subst hh
        rw [msegsWF_append, segs_flat_wf p.ptype p.className _ hl, ih more hr hrest]
        rfl
      · rw [if_neg hl] at h
        exact absurd h (by simp)

/-- The reference pipeline produces only well-formed segments. -/
theorem maskSegs_wf :
    ∀ (pats : List SWPattern) (acc segs : List MSeg), msegsWF acc = true →
      List.foldlM (fun segs p => (maskSegsPass p segs).map coalesce) acc pats =
        some segs →
      msegsWF segs = true := by
  intro pats
  induction pats with
  | nil =>
    intro acc segs hacc h
    simp at h
    rw [← h]
    exact hacc
  | cons p rest ih =>
    intro acc segs hacc h
    rw [List.foldlM_cons] at h
    cases hp : maskSegsPass p acc with
    | none => rw [hp] at h; simp at h
    | some mid =>
      rw [hp] at h
      simp only [Option.map_some', Option.bind_eq_bind, Option.some_bind] at h
      exact ih (coalesce mid) segs (coalesce_wf mid (maskSegsPass_wf p acc mid hacc hp)) h

/-- Splitting a class string that begins with the engine's fixed
`safe-web-masked ` prefix yields that token first. -/
theorem splitWS_maskedPrefix (r : List Char) :
    splitWS ("safe-web-masked ".data ++ r) = "safe-web-masked".data :: splitWS r := rfl

/-- Every class string `createMaskedElement` builds carries the
`safe-web-masked` token (so the span is found by both the tree walker's
exclusion selector and the unmask selector). -/
theorem hasClass_maskingClassOf (s? : Option Settings) (cn : List Char) :
    hasClass (maskingClassOf s? cn) "safe-web-masked".data = true := by
  unfold maskingClassOf hasClass
  rw [splitWS_maskedPrefix]
  simp [List.contains_cons]

/-- Unmasking the fragment a well-formed reference segment list stands
for restores exactly its visible text. -/
theorem unmask_msegs (s? : Option Settings) :
    ∀ segs : List MSeg, msegsWF segs = true →
      visTextList (unmaskNodeList (msegsToDom s? segs)) = joinV segs := by
  intro segs
  induction segs with
  | nil => intro _; rfl
  | cons sg rest ih =>
    intro hwf
    have hr : msegsWF rest = true := by
      simp only [msegsWF, List.all_cons, Bool.and_eq_true] at hwf
      exact hwf.2
    have ih2 := ih hr
    simp only [msegsToDom] at ih2
    cases sg with
    | plain s =>
      simp only [msegsToDom, List.map_cons, unmaskNodeList, unmaskNode, msegToDom,
        visTextList, visText, joinV]
      rw [ih2]
    | marked ty cls txt =>
      have ht : (txt.all fun c => c.toNat < 256) = true := by
        rw [msegsWF_cons_marked] at hwf
        exact (Bool.and_eq_true .. |>.mp hwf).1
      simp only [msegsToDom, List.map_cons, unmaskNodeList, unmaskNode, msegToDom]
      rw [if_pos (hasClass_maskingClassOf s? cls), atob_btoaStr txt ht]
      simp only [visTextList, visText, joinV]
      rw [ih2]

/-!
## C1 — unmask after mask restores the original text
-/

/-- C1 counterexample: masking stores originals recoverably, but the
masked string is installed with `innerHTML`, which re-parses character
data; on `mask me &amp; a@b.com thanks` (email category enabled) the
literal `&amp;` collapses to `&` and `unmaskAll` restores
`mask me & a@b.com thanks` — not the original text, so the round-trip
claim is false as stated. -/
theorem roundtrip_counterexample :
    (maskTextNodeDom (some emailOnlySettings)
        (getSensitivePatterns (some emailOnlySettings)) ampInput).isSome = true ∧
    (maskTextNodeDom (some emailOnlySettings)
        (getSensitivePatterns (some emailOnlySettings)) ampInput).map
        (fun dom => visTextList (unmaskNodeList dom)) =
      some "mask me & a@b.com thanks".data ∧
    some ampInput ≠ some "mask me & a@b.com thanks".data := by decide

/-- C1 amended: the round-trip `unmask(mask(T,P)) = T` holds whenever
the installed fragment is the intended one — i.e. whenever the parsed
result of the string-level replace passes agrees with the
interference-free reference decomposition of `T` (no character data
altered by the HTML re-parse, no later pattern matching inside an
earlier replacement's markup, `btoa` defined on every match).  Under
that agreement, every masked span stores `btoa` of its matched text,
`atob` restores it exactly, and the concatenated visible text after
`unmaskAllElements` is byte-identical to `T`.  The agreement is
sufficient, not necessary: e.g. on `overlapInput` the fragment is the
nested one of C4, yet the outer span's stored original still restores
the text. -/
theorem roundtrip_of_reference_agreement (s? : Option Settings)
    (pats : List SWPattern) (t : List Char) (segs : List MSeg)
    (href : maskSegs pats t = some segs)
    (hagree : maskTextNodeDom s? pats t = some (msegsToDom s? segs)) :
    (maskTextNodeDom s? pats t).map (fun dom => visTextList (unmaskNodeList dom)) =
      some t := by
  rw [hagree, Option.map_some']
  rw [unmask_msegs s? segs (maskSegs_wf pats _ segs (by
    cases t with
    | nil => rfl
    | cons c cs => rfl) href)]
  rw [maskSegs_joinV pats t segs href]

/-- C1 witness: the spec's scenario text with all four categories enabled
satisfies the agreement hypotheses, and the round-trip restores it
byte-identically. -/
theorem roundtrip_of_reference_agreement_witness :
    (maskSegs (getSensitivePatterns (some activeSettings)) scenarioInput =
        some scenarioSegs ∧
      maskTextNodeDom (some activeSettings)
          (getSensitivePatterns (some activeSettings)) scenarioInput =
        some (msegsToDom (some activeSettings) scenarioSegs)) ∧
    (maskTextNodeDom (some activeSettings)
        (getSensitivePatterns (some activeSettings)) scenarioInput).map
        (fun dom => visTextList (unmaskNodeList dom)) =
      some scenarioInput :=
  ⟨⟨by decide, by decide⟩,
   roundtrip_of_reference_agreement (some activeSettings)
     (getSensitivePatterns (some activeSettings)) scenarioInput scenarioSegs
     (by decide) (by decide)⟩

/-!
## C4 — overlapping matches from two categories
-/

/-- C4 counterexample: with email (registered first) and phone enabled on
`Call 123-456-7890@mail.com today`, the email rule masks the whole of
`123-456-7890@mail.com`; the phone pass then runs over the
already-substituted string and installs its own replacement around the
overlapping characters `123-456-7890` — a phone-classed span appears in
the produced fragment (nested inside the email span), so the replacement
installed for the overlapping span is not (only) the first-registered
category's, contradicting first-registered-category-wins. -/
theorem overlap_not_first_wins_counterexample :
    (maskTextNodeDom (some emailPhoneSettings)
        (getSensitivePatterns (some emailPhoneSettings)) overlapInput).map
        spanClassesList =
      some ["safe-web-masked safe-web-masked-email safe-web-blur-5".data,
            "safe-web-masked safe-web-masked-phone safe-web-blur-5".data] ∧
    maskTextNodeDom (some emailPhoneSettings)
        (getSensitivePatterns (some emailPhoneSettings)) overlapInput ≠
      maskTextNodeDom (some emailOnlySettings)
        (getSensitivePatterns (some emailOnlySettings)) overlapInput := by decide

/-- C4 amended: on a character span where matches of two enabled
categories overlap, the category whose replace pass runs LAST wins the
innermost position: its span is installed inside the earlier category's
replacement (the passes run in registration order over the accumulated
string).  Demonstrated exactly on the overlap scenario: the phone span
wraps `123-456-7890` innermost, nested in the email span. -/
theorem overlap_later_pass_wraps_innermost :
    maskTextNodeDom (some emailPhoneSettings)
        (getSensitivePatterns (some emailPhoneSettings)) overlapInput =
      some [DNode.text "Call ".data,
        DNode.span "safe-web-masked safe-web-masked-email safe-web-blur-5".data
          "email".data "MTIzLTQ1Ni03ODkwQG1haWwuY29t".data
          [DNode.span "safe-web-masked safe-web-masked-phone safe-web-blur-5".data
            "phone".data "MTIzLTQ1Ni03ODkw".data
            [DNode.text "123-456-7890".data],
           DNode.text "@mail.com".data],
        DNode.text " today".data] := by decide

end SafeWeb
